import Mathlib

/-!
Shallow embedding of the cineguess repository's catalog-reconciliation and
text-normalization logic (src/bulkdatastuff/update_movies.py,
src/bulkdatastuff/db_maker.py, src/public_scripts/report_assets.py and the
two other copies of parse_tmdb_id), together with theorems settling the
specification claims.

Strings are modelled as Lean `String`/`List Char`; the filesystem is an
explicit `FolderState` (one entry per movie folder, with its file names);
the remote TMDB fetch is an explicit function `String → Option Movie`
(deterministic within one reconciliation run, `none` = fetch failure).
Python dicts are association lists with Python's insertion-order semantics
(assigning to an existing key replaces the value in place, a new key is
appended).
-/

namespace CineGuess

/-- ASCII whitespace characters recognised by Python's `str.strip()`. -/
def isPySpace (c : Char) : Bool :=
  c == ' ' || c == '\t' || c == '\n' || c == '\r' || c == '\x0b' || c == '\x0c'

/-- Python `str.strip()` on a character list. -/
def pyStripL (l : List Char) : List Char :=
  ((l.dropWhile isPySpace).reverse.dropWhile isPySpace).reverse

/-- ASCII lowercasing of a character list (Python `str.lower()` restricted to
the ASCII range, which is all the claims exercise). -/
def toLowerL (cs : List Char) : List Char := cs.map Char.toLower

/-- `startsWithL pre l` is true when `pre` is an initial segment of `l`
(Python `str.startswith`). -/
def startsWithL : List Char → List Char → Bool
  | [], _ => true
  | _ :: _, [] => false
  | a :: ar, b :: br => a == b && startsWithL ar br

/-- Python `str.endswith` on character lists. -/
def endsWithL (suf l : List Char) : Bool := startsWithL suf.reverse l.reverse

/-- Split a character list at every character satisfying `p`; consecutive
separators produce empty groups, exactly like `re.split`/`str.split(sep)`. -/
def splitOnP (p : Char → Bool) : List Char → List (List Char)
  | [] => [[]]
  | c :: rest =>
    match splitOnP p rest with
    | [] => [[]]
    | g :: gs => if p c then [] :: g :: gs else (c :: g) :: gs

/-- Numeric value of a decimal digit character. -/
def digitVal (c : Char) : Nat := c.toNat - 48

/-- Read a digit string (most significant first) as a natural number. -/
def digitsToNat (l : List Char) : Nat := l.foldl (fun acc c => 10 * acc + digitVal c) 0

/-- The digits-and-underscores body accepted by Python's `int()`: groups of
one or more digits separated by single underscores. -/
def pyUInt (l : List Char) : Option Nat :=
  let groups := splitOnP (· == '_') l
  if groups.all (fun g => !g.isEmpty && g.all Char.isDigit) then
    some (digitsToNat groups.flatten)
  else
    none

/-- Python `int(s)` for `str` input: surrounding whitespace stripped, optional
sign, then digits with optional single underscores between them; `none` models
`ValueError`. -/
def pyIntL (l : List Char) : Option Int :=
  match pyStripL l with
  | '-' :: rest => (pyUInt rest).map (fun n => -(n : Int))
  | '+' :: rest => (pyUInt rest).map (fun n => (n : Int))
  | t => (pyUInt t).map (fun n => (n : Int))

/-- Python `int(s)` on a Lean `String`. -/
def pyInt (s : String) : Option Int := pyIntL s.data

/-- The catalog's movie record (`movies.json` entry).  Fields not touched by
any claim (genres, cast, revenue, …) are represented by the passthrough
fields kept here: reconciliation treats them exactly like `title`/`plot`/
`tagline`, i.e. it never reads or writes them. -/
structure Movie where
  tmdb_id : String
  title : String
  plot : String
  tagline : String
  challenge_id : String
  poster : Bool
  screenshots : Bool
  screenshot_count : Nat
deriving DecidableEq, Repr

/-- One movie folder on disk: its name and the names of the plain files it
contains. -/
structure FolderEntry where
  name : String
  files : List String
deriving DecidableEq, Repr

/-- The observed filesystem state under the movie-images root: the list of
immediate subdirectories, in directory-iteration order. -/
abbrev FolderState := List FolderEntry

/-- Folder lookup by name (`base_dir / tmdb_id`). -/
def findFolder (F : FolderState) (id : String) : Option FolderEntry :=
  F.find? (fun fo => fo.name == id)

/-- `(folder / "poster.jpg").exists()`: false when the folder itself is
missing. -/
def posterJpg (F : FolderState) (id : String) : Bool :=
  match findFolder F id with
  | none => false
  | some fo => fo.files.contains "poster.jpg"

/-- Index of the last `'.'` in a file name, if any. -/
def lastDotIdx (cs : List Char) : Option Nat :=
  match cs.reverse.findIdx? (· == '.') with
  | some j => some (cs.length - 1 - j)
  | none => none

/-- `pathlib.PurePath.suffix` of a file name: the part from the last dot on,
provided that dot is neither the first nor the last character. -/
def pySuffix (cs : List Char) : List Char :=
  match lastDotIdx cs with
  | some i => if 0 < i ∧ i < cs.length - 1 then cs.drop i else []
  | none => []

/-- The screenshot-file test of `update_movies.count_screenshots`:
`name.lower().startswith("screenshot") and suffix.lower() == ".jpg"`. -/
def isScreenshotJpg (f : String) : Bool :=
  startsWithL "screenshot".data (toLowerL f.data)
    && toLowerL (pySuffix f.data) == ".jpg".data

/-- `update_movies.count_screenshots`: 0 for a missing folder, otherwise the
number of matching plain files. -/
def countScreens (F : FolderState) (id : String) : Nat :=
  match findFolder F id with
  | none => 0
  | some fo => (fo.files.filter isScreenshotJpg).length

/-- The (case-sensitive) screenshot test of `db_maker.process_folder`:
`f.startswith("screenshot") and f.endswith(".jpg")`. -/
def isScreenshotJpgCS (f : String) : Bool :=
  startsWithL "screenshot".data f.data && endsWithL ".jpg".data f.data

/-- `db_maker.process_folder`'s screenshot presence check (the code calls
`os.listdir` unguarded; its only caller passes folders that exist). -/
def anyScreensCS (F : FolderState) (id : String) : Bool :=
  match findFolder F id with
  | none => false
  | some fo => fo.files.any isScreenshotJpgCS

/-- `db_maker.process_folder` for folder `id`: one fetch attempt; on success
the fetched record is completed with `challenge_id := ""` and the folder's
presence flags; on failure `none`.  (The best-effort `metadata.txt` deletion
is a filesystem side effect that none of the modelled observations read.) -/
def processFolder (fetch : String → Option Movie) (F : FolderState) (id : String) :
    Option Movie :=
  match fetch id with
  | none => none
  | some md =>
      some { md with
              challenge_id := "",
              poster := posterJpg F id,
              screenshots := anyScreensCS F id }

/-- A Python dict with `String` keys holding `Movie` values, as an
insertion-ordered association list. -/
abbrev Catalog := List (String × Movie)

/-- Python dict assignment: replace in place when the key exists, else
append. -/
def dictInsert : Catalog → String → Movie → Catalog
  | [], k, v => [(k, v)]
  | (k', v') :: rest, k, v =>
    if k' = k then (k, v) :: rest else (k', v') :: dictInsert rest k v

/-- Python `d.get(k)` / `k in d`. -/
def dictFind (d : Catalog) (k : String) : Option Movie :=
  (d.find? (fun p => p.1 == k)).map Prod.snd

/-- Iteration order of the dict's keys. -/
def keys (d : Catalog) : List String := d.map Prod.fst

/-- One step of the dict comprehension
`{m.get("tmdb_id"): m for m in existing if m.get("tmdb_id")}`. -/
def dedupeStep (d : Catalog) (m : Movie) : Catalog :=
  if m.tmdb_id = "" then d else dictInsert d m.tmdb_id m

/-- `movies_by_id` as built in `update_movies.main`: records with an empty
(or missing) `tmdb_id` are dropped; a duplicated id keeps the position of its
first occurrence and the record of its last. -/
def dedupe (ms : List Movie) : Catalog := ms.foldl dedupeStep []

/-- `scan_movie_folders`: the folder names, in iteration order. -/
def folderIds (F : FolderState) : List String := F.map (·.name)

/-- `new_ids`: folder ids absent from the existing catalog dict. -/
def newIds (F : FolderState) (d : Catalog) : List String :=
  (folderIds F).filter (fun id => (dictFind d id).isNone)

/-- Processing of one new id inside `main`'s loop: fetch, and insert the
record (keyed by the folder id) on success. -/
def fetchStep (fetch : String → Option Movie) (F : FolderState) (d : Catalog)
    (id : String) : Catalog :=
  match processFolder fetch F id with
  | some m => dictInsert d id m
  | none => d

/-- The dict after `main`'s new-folder loop. -/
def afterFetch (C : List Movie) (F : FolderState) (fetch : String → Option Movie) :
    Catalog :=
  (newIds F (dedupe C)).foldl (fetchStep fetch F) (dedupe C)

/-- The per-record effect of `update_existing_flags`: recompute the three
presence fields from the folder keyed by the dict key. -/
def setFlags (F : FolderState) (id : String) (m : Movie) : Movie :=
  { m with
      poster := posterJpg F id,
      screenshots := countScreens F id != 0,
      screenshot_count := countScreens F id }

/-- `update_existing_flags` over the whole dict (it runs after the
new-folder loop, so it touches the new records too). -/
def updateFlags (F : FolderState) (d : Catalog) : Catalog :=
  d.map (fun p => (p.1, setFlags F p.1 p.2))

/-- The merged dict at the end of `main`, before sorting. -/
def mergeCatalog (C : List Movie) (F : FolderState) (fetch : String → Option Movie) :
    Catalog :=
  updateFlags F (afterFetch C F fetch)

/-- `list(movies_by_id.values())` after the merge. -/
def mergedMovies (C : List Movie) (F : FolderState) (fetch : String → Option Movie) :
    List Movie :=
  (mergeCatalog C F fetch).map Prod.snd

/-- The sort key when the id parses as a Python int (`int(str(...))`). -/
def intKey (m : Movie) : Int := (pyInt m.tmdb_id).getD 0

/-- Comparison used when every record's key is an int. -/
def intLe (a b : Movie) : Prop := intKey a ≤ intKey b

/-- Comparison used when every record's key is a string (Python `str < str`
is lexicographic by code point). -/
def strLe (a b : Movie) : Prop := a.tmdb_id ≤ b.tmdb_id

instance : DecidableRel intLe := fun a b => inferInstanceAs (Decidable (intKey a ≤ intKey b))

instance : DecidableRel strLe := fun a b => inferInstanceAs (Decidable (a.tmdb_id ≤ b.tmdb_id))

instance : IsTotal Movie intLe := ⟨fun _ _ => Int.le_total _ _⟩

instance : IsTrans Movie intLe := ⟨fun _ _ _ h1 h2 => le_trans h1 h2⟩

instance : IsTotal Movie strLe := ⟨fun a b => le_total a.tmdb_id b.tmdb_id⟩

instance : IsTrans Movie strLe := ⟨fun _ _ _ h1 h2 => le_trans h1 h2⟩

/-- `update_movies.sort_movies`.  `sorted`'s key function returns `int` when
`tmdb_id` parses and the raw string otherwise; in Python 3 any list mixing the
two key types forces at least one `int`-vs-`str` comparison and `sorted`
raises `TypeError` (modelled as `.error ()`).  On a homogeneous list `sorted`
is a stable sort, and a stable sort by a total preorder has a unique result,
so stable insertion sort is an exact model. -/
def sortMovies (ms : List Movie) : Except Unit (List Movie) :=
  if _ : ∀ m ∈ ms, (pyInt m.tmdb_id).isSome then
    .ok (ms.insertionSort intLe)
  else if _ : ∀ m ∈ ms, pyInt m.tmdb_id = none then
    .ok (ms.insertionSort strLe)
  else
    .error ()

/-- One full reconciliation pass of `update_movies.main` (without the final
file write): merge, then sort. -/
def reconcile (C : List Movie) (F : FolderState) (fetch : String → Option Movie) :
    Except Unit (List Movie) :=
  sortMovies (mergedMovies C F fetch)

/-- Tokens of `re.split(r'[ -]', title)`: split at every single space or
hyphen. -/
def isSpaceHyphen (c : Char) : Bool := c == ' ' || c == '-'

/-- The non-colon branch of `db_maker.get_movie_initials`: split on spaces
and hyphens, drop empty tokens, then take `word[0].upper()` for every token
whose first character is alphabetic.  (Python's unicode `isalpha`/`upper`
agree with `Char.isAlpha`/`Char.toUpper` on the ASCII titles the claims
use.) -/
def initialsSimple (t : List Char) : List Char :=
  ((splitOnP isSpaceHyphen t).filter (fun w => !w.isEmpty)).filterMap
    (fun w =>
      match w with
      | [] => none
      | c :: _ => if c.isAlpha then some c.toUpper else none)

/-- `':'.join(...)` over character-list segments. -/
def joinColon : List (List Char) → List Char
  | [] => []
  | [g] => g
  | g :: g2 :: gs => g ++ ':' :: joinColon (g2 :: gs)

/-- `db_maker.get_movie_initials`.  The source recurses on
`title.split(':')`; a split part never contains `':'`, so each recursive call
lands in the empty-title or plain branch, which is `initialsSimple` of the
stripped part — the definition below is that unrolling. -/
def get_movie_initials (title : String) : String :=
  let cs := title.data
  if cs.isEmpty then ""
  else if cs.contains ':' then
    String.mk (joinColon ((splitOnP (· == ':') cs).map (fun p => initialsSimple (pyStripL p))))
  else String.mk (initialsSimple cs)

/-- Case-insensitive character equality, as `re.IGNORECASE` matches literal
letters (ASCII). -/
def lowerEq (a b : Char) : Bool := a.toLower == b.toLower

/-- `ciMatches n l`: the literal `n` matches case-insensitively at the start
of `l`. -/
def ciMatches : List Char → List Char → Bool
  | [], _ => true
  | _ :: _, [] => false
  | c :: cr, d :: dr => lowerEq c d && ciMatches cr dr

/-- The first alternative of the alternation `name1|name2|...` that matches
at this position (Python alternation is first-match, not longest-match). -/
def firstAlt (names : List (List Char)) (l : List Char) : Option (List Char) :=
  names.find? (fun n => ciMatches n l)

/-- One left-to-right pass of `re.sub(pattern, '', text, flags=IGNORECASE)`
with `pattern` the literal alternation of `names`: at each position the first
matching name is deleted and scanning resumes after it (non-overlapping
matches); an empty match deletes nothing and the character is kept. -/
def removePassAux (names : List (List Char)) : Nat → List Char → List Char
  | 0, _ => []
  | _ + 1, [] => []
  | fuel + 1, c :: rest =>
    match firstAlt names (c :: rest) with
    | some (_ :: nr) => removePassAux names fuel (rest.drop nr.length)
    | _ => c :: removePassAux names fuel rest

/-- The substitution pass at full fuel: each step consumes at least one
character, so `fuel = l.length` never runs out and the `fuel = 0` arm is
unreachable. -/
def removePass (names : List (List Char)) (l : List Char) : List Char :=
  removePassAux names l.length l

/-- `db_maker.clean_text`: unchanged on empty text or empty name list,
otherwise a single substitution pass followed by `strip()`. -/
def cleanText (text : String) (names : List String) : String :=
  if text = "" ∨ names = [] then text
  else String.mk (pyStripL (removePass (names.map String.data) text.data))

/-- `needle` occurs case-insensitively somewhere in `hay`. -/
def ciSubstr (needle : List Char) : List Char → Bool
  | [] => ciMatches needle []
  | c :: rest => ciMatches needle (c :: rest) || ciSubstr needle rest

/-- `s` has no leading and no trailing Python whitespace. -/
def noEdgeWS (l : List Char) : Bool :=
  match l with
  | [] => true
  | c :: rest =>
    !isPySpace c &&
      (match (c :: rest).getLast? with
       | some d => !isPySpace d
       | none => true)

/-- Everything after the first `':'` of a line (`line.split(":", 1)[1]`;
the callers only reach it when a colon is present). -/
def afterFirstColon : List Char → List Char
  | [] => []
  | c :: rest => if c = ':' then rest else afterFirstColon rest

/-- One line of the metadata file, as scanned by `parse_tmdb_id`: the line
yields an id exactly when it starts with `"id:"` case-insensitively and the
stripped remainder after the first colon is non-empty. -/
def idLineHit (line : String) : Option (List Char) :=
  if startsWithL "id:".data (toLowerL line.data) then
    let v := pyStripL (afterFirstColon line.data)
    if v.isEmpty then none else some v
  else none

/-- `parse_tmdb_id` (identical in `report_assets.py`, `fetch_tmdb_assets.py`
and `report_plutogang.py`): first qualifying `id:` line wins; otherwise the
fallback keeps every digit character of the metadata filename's stem, in
order, and yields `none` when there are no digits. -/
def parseTmdbId (lines : List String) (stem : String) : Option String :=
  match lines.findSome? idLineHit with
  | some v => some (String.mk v)
  | none =>
    let ds := stem.data.filter Char.isDigit
    if ds.isEmpty then none else some (String.mk ds)

/-- Modelled from the spec (claim C8's reading, for comparison with the
source's fallback): "the longest run of digit characters found in the
metadata filename" — the maximal contiguous digit run, earliest run winning
ties. -/
def specLongestDigitRun (s : String) : String :=
  let runs := (splitOnP (fun c => !c.isDigit) s.data).filter (fun r => !r.isEmpty)
  String.mk (runs.foldl (fun best r => if r.length > best.length then r else best) [])

/-! ### Dictionary lemmas -/

theorem dictInsert_of_not_mem {d : Catalog} {k : String} (v : Movie)
    (h : k ∉ keys d) : dictInsert d k v = d ++ [(k, v)] := by
  induction d with
  | nil => rfl
  | cons p rest ih =>
    obtain ⟨a, b⟩ := p
    simp only [keys, List.map_cons, List.mem_cons, not_or] at h
    have ha : ¬ a = k := fun he => h.1 he.symm
    simp only [dictInsert, if_neg ha, List.cons_append, ih h.2]

theorem mem_keys_dictInsert {d : Catalog} {k x : String} {v : Movie} :
    x ∈ keys (dictInsert d k v) ↔ x ∈ keys d ∨ x = k := by
  induction d with
  | nil => simp [dictInsert, keys]
  | cons p rest ih =>
    obtain ⟨a, b⟩ := p
    by_cases hk : a = k
    · subst hk
      simp only [dictInsert, if_pos rfl, keys, List.map_cons, List.mem_cons,
        eq_self_iff_true, if_true]
      tauto
    · simp only [dictInsert, if_neg hk, keys, List.map_cons, List.mem_cons] at *
      tauto

theorem nodup_keys_dictInsert {d : Catalog} {k : String} {v : Movie}
    (h : (keys d).Nodup) : (keys (dictInsert d k v)).Nodup := by
  induction d with
  | nil => simp [dictInsert, keys]
  | cons p rest ih =>
    obtain ⟨a, b⟩ := p
    simp only [keys, List.map_cons, List.nodup_cons] at h
    by_cases hk : a = k
    · subst hk
      simp only [dictInsert, eq_self_iff_true, if_true, keys, List.map_cons,
        List.nodup_cons]
      exact ⟨h.1, h.2⟩
    · simp only [dictInsert, if_neg hk, keys, List.map_cons, List.nodup_cons]
      refine ⟨fun hmem => ?_, ih h.2⟩
      rcases (mem_keys_dictInsert).1 hmem with h1 | h1
      · exact h.1 h1
      · exact hk h1

theorem dictFind_dictInsert_self (d : Catalog) (k : String) (v : Movie) :
    dictFind (dictInsert d k v) k = some v := by
  induction d with
  | nil => simp [dictInsert, dictFind]
  | cons p rest ih =>
    obtain ⟨a, b⟩ := p
    by_cases hk : a = k
    · subst hk
      simp [dictInsert, dictFind]
    · simp only [dictInsert, if_neg hk, dictFind, List.find?_cons]
      rw [show ((a, b).1 == k) = false from beq_eq_false_iff_ne.2 hk]
      exact ih

theorem dictFind_dictInsert_ne {d : Catalog} {k k' : String} {v : Movie}
    (h : k' ≠ k) : dictFind (dictInsert d k' v) k = dictFind d k := by
  induction d with
  | nil => simp [dictInsert, dictFind, beq_eq_false_iff_ne.2 h]
  | cons p rest ih =>
    obtain ⟨a, b⟩ := p
    by_cases hk : a = k'
    · subst hk
      simp only [dictInsert, eq_self_iff_true, if_true, dictFind,
        List.find?_cons]
      rw [show ((a, v).1 == k) = false from beq_eq_false_iff_ne.2 h]
    · simp only [dictInsert, if_neg hk, dictFind, List.find?_cons]
      cases hpk : ((a, b).1 == k) with
      | true => rfl
      | false => exact ih

theorem mem_dictInsert {d : Catalog} {k : String} {v : Movie} {p : String × Movie}
    (h : p ∈ dictInsert d k v) : p ∈ d ∨ p = (k, v) := by
  induction d with
  | nil => simpa [dictInsert] using h
  | cons q rest ih =>
    obtain ⟨a, b⟩ := q
    by_cases hk : a = k
    · subst hk
      simp only [dictInsert, eq_self_iff_true, if_true, List.mem_cons] at h
      rcases h with h | h
      · exact Or.inr h
      · exact Or.inl (List.mem_cons_of_mem _ h)
    · simp only [dictInsert, if_neg hk, List.mem_cons] at h
      rcases h with h | h
      · exact Or.inl (h ▸ List.mem_cons_self _ _)
      · rcases ih h with h1 | h1
        · exact Or.inl (List.mem_cons_of_mem _ h1)
        · exact Or.inr h1

theorem dictFind_eq_none_iff {d : Catalog} {k : String} :
    dictFind d k = none ↔ k ∉ keys d := by
  induction d with
  | nil => simp [dictFind, keys]
  | cons p rest ih =>
    obtain ⟨a, b⟩ := p
    simp only [dictFind, List.find?_cons, keys, List.map_cons, List.mem_cons]
    cases hpk : ((a, b).1 == k) with
    | true =>
      have hak : a = k := eq_of_beq hpk
      simp only [Option.map_some]
      constructor
      · intro h
        cases h
      · intro h
        exact absurd hak (fun he => h (Or.inl he.symm))
    | false =>
      simp only [dictFind, keys] at ih
      rw [ih]
      have : ¬ k = a := fun he => by simp [he] at hpk
      tauto

theorem dictFind_some_mem {d : Catalog} {k : String} {m : Movie}
    (h : dictFind d k = some m) : (k, m) ∈ d := by
  induction d with
  | nil => simp [dictFind] at h
  | cons p rest ih =>
    obtain ⟨a, b⟩ := p
    simp only [dictFind, List.find?_cons] at h
    cases hpk : ((a, b).1 == k) with
    | true =>
      rw [hpk] at h
      have hak : a = k := eq_of_beq hpk
      have hbm : b = m := by
        simpa using h
      subst hak
      subst hbm
      exact List.mem_cons_self _ _
    | false =>
      rw [hpk] at h
      exact List.mem_cons_of_mem _ (ih h)

/-! ### Invariants of the merge -/

/-- The dict invariant maintained by `update_movies.main`: keys are distinct,
every key equals its record's `tmdb_id` field and is non-empty. -/
def GoodCat (d : Catalog) : Prop :=
  (keys d).Nodup ∧ ∀ p ∈ d, p.1 = p.2.tmdb_id ∧ p.1 ≠ ""

theorem goodCat_dictInsert {d : Catalog} {k : String} {v : Movie}
    (h : GoodCat d) (hk : k = v.tmdb_id) (hne : k ≠ "") :
    GoodCat (dictInsert d k v) := by
  refine ⟨nodup_keys_dictInsert h.1, fun p hp => ?_⟩
  rcases mem_dictInsert hp with h1 | h1
  · exact h.2 p h1
  · subst h1
    exact ⟨hk, hne⟩

theorem goodCat_dedupe (C : List Movie) : GoodCat (dedupe C) := by
  suffices H : ∀ acc : Catalog, GoodCat acc → GoodCat (C.foldl dedupeStep acc) from
    H [] ⟨List.nodup_nil, by simp⟩
  induction C with
  | nil => exact fun acc h => h
  | cons m ms ih =>
    intro acc hacc
    simp only [List.foldl_cons]
    refine ih _ ?_
    unfold dedupeStep
    by_cases hm : m.tmdb_id = ""
    · simpa [hm] using hacc
    · simpa [hm] using goodCat_dictInsert hacc rfl hm

theorem tmdb_id_setFlags (F : FolderState) (id : String) (m : Movie) :
    (setFlags F id m).tmdb_id = m.tmdb_id := rfl

theorem challenge_id_setFlags (F : FolderState) (id : String) (m : Movie) :
    (setFlags F id m).challenge_id = m.challenge_id := rfl

theorem setFlags_setFlags (F : FolderState) (id : String) (m : Movie) :
    setFlags F id (setFlags F id m) = setFlags F id m := rfl

theorem processFolder_tmdb_id {fetch : String → Option Movie} {F : FolderState}
    {id : String} {m : Movie}
    (hgood : ∀ i mi, fetch i = some mi → mi.tmdb_id = i)
    (h : processFolder fetch F id = some m) : m.tmdb_id = id := by
  unfold processFolder at h
  cases hf : fetch id with
  | none => rw [hf] at h; cases h
  | some md =>
    rw [hf] at h
    simp only [Option.some.injEq] at h
    rw [← h]
    exact hgood id md hf

theorem processFolder_challenge {fetch : String → Option Movie} {F : FolderState}
    {id : String} {m : Movie}
    (h : processFolder fetch F id = some m) : m.challenge_id = "" := by
  unfold processFolder at h
  cases hf : fetch id with
  | none => rw [hf] at h; cases h
  | some md =>
    rw [hf] at h
    simp only [Option.some.injEq] at h
    rw [← h]

theorem goodCat_foldFetch {fetch : String → Option Movie} {F : FolderState}
    (hgood : ∀ i mi, fetch i = some mi → mi.tmdb_id = i)
    (ids : List String) (hids : ∀ i ∈ ids, i ≠ "") :
    ∀ d : Catalog, GoodCat d → GoodCat (ids.foldl (fetchStep fetch F) d) := by
  induction ids with
  | nil => exact fun d h => h
  | cons i is ih =>
    intro d hd
    simp only [List.foldl_cons]
    refine ih (fun j hj => hids j (List.mem_cons_of_mem _ hj)) _ ?_
    unfold fetchStep
    cases hp : processFolder fetch F i with
    | none => exact hd
    | some m =>
      exact goodCat_dictInsert hd (processFolder_tmdb_id hgood hp).symm
        (hids i (List.mem_cons_self _ _))

theorem mem_keys_foldFetch {fetch : String → Option Movie} {F : FolderState}
    {x : String} (ids : List String) :
    ∀ d : Catalog,
      (x ∈ keys (ids.foldl (fetchStep fetch F) d) ↔
        x ∈ keys d ∨ (x ∈ ids ∧ (processFolder fetch F x).isSome)) := by
  induction ids with
  | nil => simp
  | cons i is ih =>
    intro d
    simp only [List.foldl_cons, ih, List.mem_cons]
    unfold fetchStep
    cases hp : processFolder fetch F i with
    | none =>
      constructor
      · rintro (h | ⟨h1, h2⟩)
        · exact Or.inl h
        · exact Or.inr ⟨Or.inr h1, h2⟩
      · rintro (h | ⟨h1 | h1, h2⟩)
        · exact Or.inl h
        · subst h1
          rw [hp] at h2
          cases h2
        · exact Or.inr ⟨h1, h2⟩
    | some m =>
      rw [mem_keys_dictInsert]
      constructor
      · rintro ((h | h) | ⟨h1, h2⟩)
        · exact Or.inl h
        · exact Or.inr ⟨Or.inl h, h ▸ hp ▸ rfl⟩
        · exact Or.inr ⟨Or.inr h1, h2⟩
      · rintro (h | ⟨h1 | h1, h2⟩)
        · exact Or.inl (Or.inl h)
        · exact Or.inl (Or.inr h1)
        · exact Or.inr ⟨h1, h2⟩

theorem dictFind_foldFetch_ne {fetch : String → Option Movie} {F : FolderState}
    {k : String} (ids : List String) (h : ∀ i ∈ ids, i ≠ k) :
    ∀ d : Catalog, dictFind (ids.foldl (fetchStep fetch F) d) k = dictFind d k := by
  induction ids with
  | nil => exact fun d => rfl
  | cons i is ih =>
    intro d
    simp only [List.foldl_cons]
    rw [ih (fun j hj => h j (List.mem_cons_of_mem _ hj))]
    unfold fetchStep
    cases hp : processFolder fetch F i with
    | none => rfl
    | some m => exact dictFind_dictInsert_ne (h i (List.mem_cons_self _ _))

theorem mem_foldFetch {fetch : String → Option Movie} {F : FolderState}
    {p : String × Movie} (ids : List String) :
    ∀ d : Catalog, p ∈ ids.foldl (fetchStep fetch F) d →
      p ∈ d ∨ ∃ i ∈ ids, processFolder fetch F i = some p.2 ∧ p.1 = i := by
  induction ids with
  | nil => exact fun d h => Or.inl h
  | cons i is ih =>
    intro d hp
    simp only [List.foldl_cons] at hp
    rcases ih _ hp with h1 | ⟨j, hj, h2, h3⟩
    · unfold fetchStep at h1
      cases hpf : processFolder fetch F i with
      | none =>
        rw [hpf] at h1
        exact Or.inl h1
      | some m =>
        rw [hpf] at h1
        rcases mem_dictInsert h1 with h2 | h2
        · exact Or.inl h2
        · subst h2
          exact Or.inr ⟨i, List.mem_cons_self _ _, hpf, rfl⟩
    · exact Or.inr ⟨j, List.mem_cons_of_mem _ hj, h2, h3⟩

theorem foldFetch_all_fail {fetch : String → Option Movie} {F : FolderState}
    (ids : List String) (h : ∀ i ∈ ids, processFolder fetch F i = none) :
    ∀ d : Catalog, ids.foldl (fetchStep fetch F) d = d := by
  induction ids with
  | nil => exact fun d => rfl
  | cons i is ih =>
    intro d
    simp only [List.foldl_cons]
    rw [show fetchStep fetch F d i = d from by
      unfold fetchStep
      rw [h i (List.mem_cons_self _ _)]]
    exact ih (fun j hj => h j (List.mem_cons_of_mem _ hj)) d

theorem keys_updateFlags (F : FolderState) (d : Catalog) :
    keys (updateFlags F d) = keys d := by
  unfold keys updateFlags
  rw [List.map_map]
  rfl

theorem dictFind_updateFlags (F : FolderState) (d : Catalog) (k : String) :
    dictFind (updateFlags F d) k = (dictFind d k).map (setFlags F k) := by
  induction d with
  | nil => rfl
  | cons p rest ih =>
    obtain ⟨a, b⟩ := p
    simp only [updateFlags, List.map_cons, dictFind, List.find?_cons]
    cases hpk : ((a, b).1 == k) with
    | true =>
      have hak : a = k := eq_of_beq hpk
      subst hak
      simp
    | false =>
      simpa [updateFlags, dictFind] using ih

theorem mem_updateFlags {F : FolderState} {d : Catalog} {p : String × Movie} :
    p ∈ updateFlags F d ↔ ∃ m, (p.1, m) ∈ d ∧ p.2 = setFlags F p.1 m := by
  unfold updateFlags
  rw [List.mem_map]
  constructor
  · rintro ⟨⟨a, b⟩, hab, rfl⟩
    exact ⟨b, hab, rfl⟩
  · rintro ⟨m, hm, hp⟩
    refine ⟨(p.1, m), hm, ?_⟩
    rw [← hp]

theorem goodCat_updateFlags {F : FolderState} {d : Catalog}
    (h : GoodCat d) : GoodCat (updateFlags F d) := by
  refine ⟨by rw [keys_updateFlags]; exact h.1, fun p hp => ?_⟩
  rcases mem_updateFlags.1 hp with ⟨m, hm, hp2⟩
  have := h.2 (p.1, m) hm
  rw [hp2]
  exact ⟨this.1, this.2⟩

theorem goodCat_mergeCatalog {C : List Movie} {F : FolderState}
    {fetch : String → Option Movie}
    (hgood : ∀ i mi, fetch i = some mi → mi.tmdb_id = i)
    (hne : ∀ fo ∈ F, FolderEntry.name fo ≠ "") :
    GoodCat (mergeCatalog C F fetch) := by
  refine goodCat_updateFlags (goodCat_foldFetch hgood _ ?_ _ (goodCat_dedupe C))
  intro i hi
  unfold newIds folderIds at hi
  rcases List.mem_filter.1 hi with ⟨hi1, _⟩
  rcases List.mem_map.1 hi1 with ⟨fo, hfo, rfl⟩
  exact hne fo hfo

/-! ### Characterizations of `dedupe` and the sort -/

theorem foldDedupe_of_nodup (ms : List Movie) :
    ∀ acc : Catalog,
      (∀ m ∈ ms, m.tmdb_id ≠ "") →
      (ms.map Movie.tmdb_id).Nodup →
      (∀ m ∈ ms, m.tmdb_id ∉ keys acc) →
      ms.foldl dedupeStep acc = acc ++ ms.map (fun m => (m.tmdb_id, m)) := by
  induction ms with
  | nil => simp
  | cons m rest ih =>
    intro acc h1 h2 h3
    simp only [List.map_cons, List.nodup_cons] at h2
    simp only [List.foldl_cons]
    have hstep : dedupeStep acc m = acc ++ [(m.tmdb_id, m)] := by
      unfold dedupeStep
      rw [if_neg (h1 m (List.mem_cons_self _ _))]
      exact dictInsert_of_not_mem m (h3 m (List.mem_cons_self _ _))
    rw [hstep, ih _ (fun x hx => h1 x (List.mem_cons_of_mem _ hx)) h2.2 ?_,
      List.append_assoc]
    · rfl
    · intro x hx
      unfold keys
      rw [List.map_append]
      simp only [List.mem_append, not_or]
      refine ⟨h3 x (List.mem_cons_of_mem _ hx), ?_⟩
      simp only [List.map_cons, List.map_nil, List.mem_singleton]
      intro he
      exact h2.1 (he ▸ List.mem_map_of_mem Movie.tmdb_id hx)

theorem dedupe_of_nodup {ms : List Movie}
    (h1 : ∀ m ∈ ms, m.tmdb_id ≠ "") (h2 : (ms.map Movie.tmdb_id).Nodup) :
    dedupe ms = ms.map (fun m => (m.tmdb_id, m)) := by
  unfold dedupe
  rw [foldDedupe_of_nodup ms [] h1 h2 (by simp [keys])]
  rfl

theorem foldDedupe_find (id : String) (hid : id ≠ "") (C : List Movie) :
    ∀ acc : Catalog,
      dictFind (C.foldl dedupeStep acc) id =
        ((C.filter (fun m => m.tmdb_id == id)).getLast?).or (dictFind acc id) := by
  induction C with
  | nil => simp
  | cons m rest ih =>
    intro acc
    simp only [List.foldl_cons, List.filter_cons]
    by_cases hm : m.tmdb_id = id
    · rw [if_pos (beq_iff_eq.2 hm)]
      have hstep : dedupeStep acc m = dictInsert acc id m := by
        unfold dedupeStep
        rw [if_neg (hm ▸ hid), hm]
      rw [hstep, ih]
      rw [dictFind_dictInsert_self]
      cases hfl : (rest.filter (fun m => m.tmdb_id == id)).getLast? with
      | none =>
        have : rest.filter (fun m => m.tmdb_id == id) = [] := by
          cases hl : rest.filter (fun m => m.tmdb_id == id) with
          | nil => rfl
          | cons x xs => rw [hl] at hfl; simp [List.getLast?] at hfl
        simp [this, Option.or]
      | some x =>
        have hne2 : rest.filter (fun m => m.tmdb_id == id) ≠ [] := by
          intro hl
          rw [hl] at hfl
          cases hfl
        rw [List.getLast?_cons, hfl]
        simp only [Option.or_some]
        rfl
    · rw [if_neg (by simpa using hm)]
      have hstep : dictFind (dedupeStep acc m) id = dictFind acc id := by
        unfold dedupeStep
        by_cases hz : m.tmdb_id = ""
        · rw [if_pos hz]
        · rw [if_neg hz]
          exact dictFind_dictInsert_ne hm
      rw [ih, hstep]

theorem dictFind_dedupe_last {id : String} (hid : id ≠ "") (C : List Movie) :
    dictFind (dedupe C) id = (C.filter (fun m => m.tmdb_id == id)).getLast? := by
  unfold dedupe
  rw [foldDedupe_find id hid C []]
  rw [show dictFind [] id = none from rfl, Option.or_none]

theorem dictFind_dedupe_empty (C : List Movie) : dictFind (dedupe C) "" = none := by
  rw [dictFind_eq_none_iff]
  intro h
  rcases List.mem_map.1 h with ⟨p, hp, hp1⟩
  exact ((goodCat_dedupe C).2 p hp).2 hp1

theorem sortMovies_ok_perm {ms O : List Movie} (h : sortMovies ms = Except.ok O) :
    O.Perm ms := by
  unfold sortMovies at h
  split at h
  · injection h with h2
    rw [← h2]
    exact List.perm_insertionSort intLe ms
  · split at h
    · injection h with h2
      rw [← h2]
      exact List.perm_insertionSort strLe ms
    · cases h

theorem map_tmdb_eq_keys {d : Catalog} (h : ∀ p ∈ d, p.1 = p.2.tmdb_id) :
    (d.map Prod.snd).map Movie.tmdb_id = keys d := by
  unfold keys
  rw [List.map_map]
  exact List.map_congr_left (fun p hp => (h p hp).symm)

theorem mergeCatalog_fixed {C : List Movie} {F : FolderState}
    {fetch : String → Option Movie} :
    ∀ p ∈ mergeCatalog C F fetch, setFlags F p.1 p.2 = p.2 := by
  intro p hp
  rcases mem_updateFlags.1 hp with ⟨m, _, hp2⟩
  rw [hp2, setFlags_setFlags]

theorem mergedMovies_def (C : List Movie) (F : FolderState)
    (fetch : String → Option Movie) :
    mergedMovies C F fetch = (mergeCatalog C F fetch).map Prod.snd := rfl

/-- C2: reconciliation is idempotent: for every catalog `C` and folder state
`F`, with the same filesystem observations on both runs, the same (black-box,
deterministic) fetch behaviour, and every successful fetch returning the
record of the requested id, re-running reconciliation on a reconciled catalog
reproduces it exactly — same records, same field values, same order. -/
theorem C2_reconcile_idempotent (C : List Movie) (F : FolderState)
    (fetch : String → Option Movie)
    (hgood : ∀ i mi, fetch i = some mi → mi.tmdb_id = i)
    (hne : ∀ fo ∈ F, FolderEntry.name fo ≠ "")
    (O : List Movie) (h1 : reconcile C F fetch = Except.ok O) :
    reconcile O F fetch = Except.ok O := by
  have hGood1 : GoodCat (mergeCatalog C F fetch) := goodCat_mergeCatalog hgood hne
  have h1' : sortMovies (mergedMovies C F fetch) = Except.ok O := h1
  have hperm : O.Perm (mergedMovies C F fetch) := sortMovies_ok_perm h1'
  have hpermids : (O.map Movie.tmdb_id).Perm (keys (mergeCatalog C F fetch)) := by
    have h := hperm.map Movie.tmdb_id
    rwa [mergedMovies_def, map_tmdb_eq_keys (fun p hp => (hGood1.2 p hp).1)] at h
  have hOfix : ∀ m ∈ O, m.tmdb_id ≠ "" ∧ setFlags F m.tmdb_id m = m := by
    intro m hm
    have hm1 : m ∈ (mergeCatalog C F fetch).map Prod.snd := by
      rw [← mergedMovies_def]
      exact hperm.subset hm
    rcases List.mem_map.1 hm1 with ⟨p, hp, hpm⟩
    have hg := hGood1.2 p hp
    have hfix := mergeCatalog_fixed p hp
    constructor
    · rw [← hpm, ← hg.1]
      exact hg.2
    · rw [← hpm, ← hg.1]
      exact hfix
  have hOne : ∀ m ∈ O, m.tmdb_id ≠ "" := fun m hm => (hOfix m hm).1
  have hONodup : (O.map Movie.tmdb_id).Nodup := hpermids.nodup_iff.2 hGood1.1
  have hded : dedupe O = O.map (fun m => (m.tmdb_id, m)) :=
    dedupe_of_nodup hOne hONodup
  have hkeysO : keys (dedupe O) = O.map Movie.tmdb_id := by
    rw [hded]
    unfold keys
    rw [List.map_map]
    rfl
  have hkeysAF : keys (mergeCatalog C F fetch) = keys (afterFetch C F fetch) :=
    keys_updateFlags F (afterFetch C F fetch)
  have hfail2 : ∀ id ∈ newIds F (dedupe O), processFolder fetch F id = none := by
    intro id hid
    rcases List.mem_filter.1 hid with ⟨hidf, hfind⟩
    have hnotinO : id ∉ keys (dedupe O) :=
      dictFind_eq_none_iff.1 (Option.isNone_iff_eq_none.1 hfind)
    have hnotin1 : id ∉ keys (afterFetch C F fetch) := by
      intro hmem
      apply hnotinO
      rw [hkeysO]
      exact hpermids.mem_iff.2 (hkeysAF ▸ hmem)
    cases hpf : processFolder fetch F id with
    | none => rfl
    | some m =>
      exfalso
      apply hnotin1
      unfold afterFetch
      refine (mem_keys_foldFetch _ _).2 ?_
      by_cases hin : id ∈ keys (dedupe C)
      · exact Or.inl hin
      · refine Or.inr ⟨?_, by rw [hpf]; rfl⟩
        unfold newIds
        refine List.mem_filter.2 ⟨hidf, ?_⟩
        rw [Option.isNone_iff_eq_none, dictFind_eq_none_iff]
        exact hin
  have hAF2 : afterFetch O F fetch = dedupe O := by
    unfold afterFetch
    exact foldFetch_all_fail _ hfail2 _
  have hUF : updateFlags F (dedupe O) = dedupe O := by
    rw [hded]
    unfold updateFlags
    rw [List.map_map]
    apply List.map_congr_left
    intro m hm
    simp only [Function.comp_apply]
    rw [(hOfix m hm).2]
  have hmerged2 : mergedMovies O F fetch = O := by
    rw [mergedMovies_def]
    unfold mergeCatalog
    rw [hAF2, hUF, hded, List.map_map]
    rw [show (Prod.snd ∘ fun m : Movie => (m.tmdb_id, m)) = id from rfl, List.map_id]
  show sortMovies (mergedMovies O F fetch) = Except.ok O
  rw [hmerged2]
  by_cases hA : ∀ m ∈ mergedMovies C F fetch, (pyInt m.tmdb_id).isSome
  · have hAO : ∀ m ∈ O, (pyInt m.tmdb_id).isSome :=
      fun m hm => hA m (hperm.subset hm)
    have h2 : (mergedMovies C F fetch).insertionSort intLe = O := by
      unfold sortMovies at h1'
      rw [dif_pos hA] at h1'
      injection h1'
    have hsorted : List.Sorted intLe O :=
      h2 ▸ List.sorted_insertionSort intLe (mergedMovies C F fetch)
    unfold sortMovies
    rw [dif_pos hAO, List.Sorted.insertionSort_eq hsorted]
  · by_cases hB : ∀ m ∈ mergedMovies C F fetch, pyInt m.tmdb_id = none
    · have hBO : ∀ m ∈ O, pyInt m.tmdb_id = none :=
        fun m hm => hB m (hperm.subset hm)
      have hnAO : ¬ ∀ m ∈ O, (pyInt m.tmdb_id).isSome := by
        intro hall
        apply hA
        intro m hm
        exact hall m (hperm.symm.subset hm)
      have h2 : (mergedMovies C F fetch).insertionSort strLe = O := by
        unfold sortMovies at h1'
        rw [dif_neg hA, dif_pos hB] at h1'
        injection h1'
      have hsorted : List.Sorted strLe O :=
        h2 ▸ List.sorted_insertionSort strLe (mergedMovies C F fetch)
      unfold sortMovies
      rw [dif_neg hnAO, dif_pos hBO, List.Sorted.insertionSort_eq hsorted]
    · exfalso
      unfold sortMovies at h1'
      rw [dif_neg hA, dif_neg hB] at h1'
      cases h1'

/-! ### Shared concrete material for witnesses and counterexamples -/

/-- A movie record with the given id and every other field at its default. -/
def mkMovie (id : String) : Movie :=
  { tmdb_id := id, title := "", plot := "", tagline := "", challenge_id := "",
    poster := false, screenshots := false, screenshot_count := 0 }

/-- A small folder tree: id 5 has a poster and a screenshot, ids 6 and 7 are
empty folders. -/
def exampleFolders : FolderState :=
  [⟨"5", ["poster.jpg", "screenshot_1.jpg"]⟩, ⟨"6", []⟩, ⟨"7", []⟩]

/-- A fetch that succeeds only for id 6 (its record carries a stray
`challenge_id`, which `process_folder` must overwrite with `""`). -/
def exampleFetch : String → Option Movie := fun id =>
  if id = "6" then some { mkMovie "6" with title := "Six", challenge_id := "junk" }
  else none

/-- A fetch that always fails. -/
def noFetch : String → Option Movie := fun _ => none

theorem exampleFetch_good : ∀ i mi, exampleFetch i = some mi → mi.tmdb_id = i := by
  intro i mi h
  unfold exampleFetch at h
  by_cases hi : i = "6"
  · subst hi
    rw [if_pos rfl] at h
    injection h with h2
    rw [← h2]
    rfl
  · rw [if_neg hi] at h
    cases h

theorem noFetch_good : ∀ i mi, noFetch i = some mi → mi.tmdb_id = i := by
  intro i mi h
  cases h

/-- The reconciled output of `[mkMovie "5"]` against `exampleFolders` and
`exampleFetch`. -/
def exampleOut : List Movie :=
  [{ mkMovie "5" with poster := true, screenshots := true, screenshot_count := 1 },
   { mkMovie "6" with title := "Six" }]

/-- The key fact shared by the frame-condition claims: an id present in the
deduplicated input catalog keeps its record through the fetch loop (new ids
are, by construction, ids the dict does not contain) and then has exactly the
flag refresh applied to it. -/
theorem dictFind_mergeCatalog_existing (C : List Movie) (F : FolderState)
    (fetch : String → Option Movie) (id : String) (m0 : Movie)
    (h : dictFind (dedupe C) id = some m0) :
    dictFind (mergeCatalog C F fetch) id = some (setFlags F id m0) := by
  have hAF : dictFind (afterFetch C F fetch) id = some m0 := by
    unfold afterFetch
    rw [dictFind_foldFetch_ne _ ?_ _]
    · exact h
    · intro i hi hieq
      subst hieq
      rcases List.mem_filter.1 hi with ⟨_, hfind⟩
      rw [Option.isNone_iff_eq_none.1 hfind] at h
      cases h
  unfold mergeCatalog
  rw [dictFind_updateFlags, hAF]
  rfl

/-- Witness for C2 at concrete inputs (fetch of id 7 fails on both runs). -/
theorem C2_reconcile_idempotent_witness :
    reconcile exampleOut exampleFolders exampleFetch = Except.ok exampleOut :=
  C2_reconcile_idempotent [mkMovie "5"] exampleFolders exampleFetch
    exampleFetch_good (by decide) exampleOut (by rfl)

/-- C3: every folder id absent from the existing catalog is fetched exactly
once; a failed fetch leaves that id out of the final catalog without
stopping the run, while the other new ids' successful fetches land in the
final catalog. -/
theorem C3_new_id_fetch_behaviour (C : List Movie) (F : FolderState)
    (fetch : String → Option Movie) (O : List Movie)
    (hnd : (folderIds F).Nodup)
    (hgood : ∀ i mi, fetch i = some mi → mi.tmdb_id = i)
    (hne : ∀ fo ∈ F, FolderEntry.name fo ≠ "")
    (hs : reconcile C F fetch = Except.ok O) :
    (∀ id, id ∈ folderIds F → dictFind (dedupe C) id = none →
        (newIds F (dedupe C)).count id = 1)
    ∧ (∀ id ∈ newIds F (dedupe C), processFolder fetch F id = none →
        ∀ r ∈ O, r.tmdb_id ≠ id)
    ∧ (∀ id ∈ newIds F (dedupe C), (processFolder fetch F id).isSome →
        ∃ r ∈ O, r.tmdb_id = id) := by
  have hperm : O.Perm (mergedMovies C F fetch) := sortMovies_ok_perm hs
  refine ⟨?_, ?_, ?_⟩
  · intro id hmem hfind
    have hmemN : id ∈ newIds F (dedupe C) :=
      List.mem_filter.2 ⟨hmem, by rw [Option.isNone_iff_eq_none]; exact hfind⟩
    exact List.count_eq_one_of_mem (hnd.filter _) hmemN
  · intro id hid hpf r hr heq
    have hrM : r ∈ (mergeCatalog C F fetch).map Prod.snd := by
      rw [← mergedMovies_def]
      exact hperm.subset hr
    rcases List.mem_map.1 hrM with ⟨p, hp, hpr⟩
    rcases mem_updateFlags.1 hp with ⟨m, hm, hp2⟩
    rcases mem_foldFetch _ _ hm with h1 | ⟨i, hi, h2, h3⟩
    · have hg := (goodCat_dedupe C).2 (p.1, m) h1
      have hidkeys : id ∉ keys (dedupe C) := by
        rcases List.mem_filter.1 hid with ⟨_, hf⟩
        exact dictFind_eq_none_iff.1 (Option.isNone_iff_eq_none.1 hf)
      apply hidkeys
      have hr1 : r.tmdb_id = p.1 := by
        rw [← hpr, hp2, tmdb_id_setFlags, ← hg.1]
      rw [← heq, hr1]
      show p.1 ∈ List.map Prod.fst (dedupe C)
      exact List.mem_map.2 ⟨(p.1, m), h1, rfl⟩
    · have hmi : m.tmdb_id = i := processFolder_tmdb_id hgood h2
      have hri : r.tmdb_id = i := by
        rw [← hpr, hp2, tmdb_id_setFlags, hmi]
      rw [heq] at hri
      rw [← hri] at h2
      rw [hpf] at h2
      cases h2
  · intro id hid hsome
    have hkey : id ∈ keys (afterFetch C F fetch) := by
      unfold afterFetch
      exact (mem_keys_foldFetch _ _).2 (Or.inr ⟨hid, hsome⟩)
    have hfind : ∃ m, dictFind (afterFetch C F fetch) id = some m := by
      cases hf : dictFind (afterFetch C F fetch) id with
      | none => exact absurd hkey (dictFind_eq_none_iff.1 hf)
      | some m => exact ⟨m, rfl⟩
    rcases hfind with ⟨m, hfm⟩
    have hfm2 : dictFind (mergeCatalog C F fetch) id = some (setFlags F id m) := by
      unfold mergeCatalog
      rw [dictFind_updateFlags, hfm]
      rfl
    have hmem2 : setFlags F id m ∈ mergedMovies C F fetch := by
      rw [mergedMovies_def]
      exact List.mem_map_of_mem Prod.snd (dictFind_some_mem hfm2)
    refine ⟨setFlags F id m, hperm.mem_iff.2 hmem2, ?_⟩
    have hGoodAF : GoodCat (afterFetch C F fetch) := by
      refine goodCat_foldFetch hgood _ ?_ _ (goodCat_dedupe C)
      intro i hi
      rcases List.mem_filter.1 hi with ⟨hi1, _⟩
      rcases List.mem_map.1 hi1 with ⟨fo, hfo, rfl⟩
      exact hne fo hfo
    have hg := hGoodAF.2 (id, m) (dictFind_some_mem hfm)
    rw [tmdb_id_setFlags, ← hg.1]

/-- Witness for C3: against an empty catalog, id 7's fetch fails and id 6's
succeeds; 7 is attempted once and missing from the output, 6 is present. -/
theorem C3_new_id_fetch_behaviour_witness :
    (newIds exampleFolders (dedupe [])).count "7" = 1
    ∧ (∀ r ∈ [{ mkMovie "6" with title := "Six" }], Movie.tmdb_id r ≠ "7")
    ∧ (∃ r ∈ [{ mkMovie "6" with title := "Six" }], Movie.tmdb_id r = "6") := by
  have h := C3_new_id_fetch_behaviour [] exampleFolders exampleFetch
    [{ mkMovie "6" with title := "Six" }] (by decide) exampleFetch_good
    (by decide) (by rfl)
  exact ⟨h.1 "7" (by decide) (by rfl), h.2.1 "7" (by decide) (by rfl),
    h.2.2 "6" (by decide) (by rfl)⟩

/-- C4: after a reconciliation pass, every id of the (deduplicated) input
catalog carries exactly the current folder observations in `poster`,
`screenshots` and `screenshot_count`, whatever the previous record `m0` held
there — the new values depend only on the folder state. -/
theorem C4_flags_recomputed (C : List Movie) (F : FolderState)
    (fetch : String → Option Movie) (id : String) (m0 : Movie)
    (h : dictFind (dedupe C) id = some m0) :
    dictFind (mergeCatalog C F fetch) id = some (setFlags F id m0)
    ∧ (setFlags F id m0).poster = posterJpg F id
    ∧ (setFlags F id m0).screenshots = (countScreens F id != 0)
    ∧ (setFlags F id m0).screenshot_count = countScreens F id
    ∧ setFlags F id m0 ∈ mergedMovies C F fetch := by
  have hMF := dictFind_mergeCatalog_existing C F fetch id m0 h
  refine ⟨hMF, rfl, rfl, rfl, ?_⟩
  rw [mergedMovies_def]
  exact List.mem_map_of_mem Prod.snd (dictFind_some_mem hMF)

/-- Witness for C4: a catalog record for id 5 with stale flag values gets the
observed values of folder 5 (poster present, one screenshot). -/
theorem C4_flags_recomputed_witness :
    dictFind (mergeCatalog [{ mkMovie "5" with screenshot_count := 99 }]
        exampleFolders exampleFetch) "5"
      = some (setFlags exampleFolders "5" { mkMovie "5" with screenshot_count := 99 })
    ∧ setFlags exampleFolders "5" { mkMovie "5" with screenshot_count := 99 }
      = { mkMovie "5" with poster := true, screenshots := true, screenshot_count := 1 } :=
  ⟨(C4_flags_recomputed [{ mkMovie "5" with screenshot_count := 99 }]
      exampleFolders exampleFetch "5" _ (by rfl)).1, by rfl⟩

/-- A stale catalog record whose folder no longer exists. -/
def c5Stale : Movie :=
  { mkMovie "9" with
    title := "Gone", challenge_id := "c9", poster := true,
    screenshots := true, screenshot_count := 3 }

/-- `c5Stale` after a reconciliation pass that no longer sees folder 9. -/
def c5After : Movie :=
  { c5Stale with
    poster := false, screenshots := false, screenshot_count := 0 }

/-- C5 counterexample: the claim says a record whose folder disappeared is
left with none of its fields modified, but reconciliation recomputes its
presence flags against the missing folder: `poster` flips from `true` to
`false` (likewise `screenshots`, and `screenshot_count` drops to 0). -/
theorem C5_stale_counterexample :
    reconcile [c5Stale] [] noFetch = Except.ok [c5After] ∧ c5After ≠ c5Stale := by
  exact ⟨rfl, by decide⟩

/-- C5 as amended: an id present only in the old catalog is not deleted, and
all its fields except the three presence fields are preserved verbatim; those
three are recomputed against the absent folder and become `false`, `false`,
`0`. -/
theorem C5_stale_entries_amended (C : List Movie) (F : FolderState)
    (fetch : String → Option Movie) (id : String) (m0 : Movie)
    (h : dictFind (dedupe C) id = some m0) (habs : id ∉ folderIds F) :
    dictFind (mergeCatalog C F fetch) id =
      some { m0 with poster := false, screenshots := false, screenshot_count := 0 }
    ∧ { m0 with poster := false, screenshots := false, screenshot_count := 0 }
        ∈ mergedMovies C F fetch := by
  have hff : findFolder F id = none := by
    unfold findFolder
    rw [List.find?_eq_none]
    intro fo hfo hb
    apply habs
    unfold folderIds
    exact List.mem_map.2 ⟨fo, hfo, eq_of_beq hb⟩
  have hpj : posterJpg F id = false := by
    unfold posterJpg
    rw [hff]
  have hcs : countScreens F id = 0 := by
    unfold countScreens
    rw [hff]
  have hset : setFlags F id m0 =
      { m0 with poster := false, screenshots := false, screenshot_count := 0 } := by
    unfold setFlags
    rw [hpj, hcs]
    rfl
  have hMF := dictFind_mergeCatalog_existing C F fetch id m0 h
  rw [hset] at hMF
  refine ⟨hMF, ?_⟩
  rw [mergedMovies_def]
  exact List.mem_map_of_mem Prod.snd (dictFind_some_mem hMF)

/-- Witness for the amended C5. -/
theorem C5_stale_entries_amended_witness :
    dictFind (mergeCatalog [c5Stale] exampleFolders exampleFetch) "9" =
      some c5After :=
  (C5_stale_entries_amended [c5Stale] exampleFolders exampleFetch "9" c5Stale
    (by rfl) (by decide)).1

/-- C6: reconciliation leaves `challenge_id` alone — a pre-existing record's
value survives verbatim, and every record created by this run's fetches has
`challenge_id = ""`. -/
theorem C6_challenge_id_preserved (C : List Movie) (F : FolderState)
    (fetch : String → Option Movie) :
    (∀ id m0, dictFind (dedupe C) id = some m0 →
        ∃ m, dictFind (mergeCatalog C F fetch) id = some m
          ∧ m.challenge_id = m0.challenge_id)
    ∧ (∀ r ∈ mergedMovies C F fetch, Movie.tmdb_id r ∉ keys (dedupe C) →
        Movie.challenge_id r = "") := by
  constructor
  · intro id m0 h
    exact ⟨setFlags F id m0, dictFind_mergeCatalog_existing C F fetch id m0 h, rfl⟩
  · intro r hr hnot
    rw [mergedMovies_def] at hr
    rcases List.mem_map.1 hr with ⟨p, hp, hpr⟩
    rcases mem_updateFlags.1 hp with ⟨m, hm, hp2⟩
    rcases mem_foldFetch _ _ hm with h1 | ⟨i, hi, h2, h3⟩
    · exfalso
      apply hnot
      have hg := (goodCat_dedupe C).2 (p.1, m) h1
      have hr1 : Movie.tmdb_id r = p.1 := by
        rw [← hpr, hp2, tmdb_id_setFlags, ← hg.1]
      rw [hr1]
      show p.1 ∈ List.map Prod.fst (dedupe C)
      exact List.mem_map.2 ⟨(p.1, m), h1, rfl⟩
    · have hch : m.challenge_id = "" := processFolder_challenge h2
      rw [← hpr, hp2, challenge_id_setFlags, hch]

/-- Witness for C6: the `"keep"` value of id 5 survives, and the freshly
fetched id 6 (whose raw fetch result carried `challenge_id = "junk"`) ends
with the empty string. -/
theorem C6_challenge_id_preserved_witness :
    (∃ m, dictFind (mergeCatalog [{ mkMovie "5" with challenge_id := "keep" }]
        exampleFolders exampleFetch) "5" = some m
      ∧ m.challenge_id = ({ mkMovie "5" with challenge_id := "keep" } : Movie).challenge_id)
    ∧ Movie.challenge_id { mkMovie "6" with title := "Six" } = "" := by
  refine ⟨(C6_challenge_id_preserved [{ mkMovie "5" with challenge_id := "keep" }]
      exampleFolders exampleFetch).1 "5" _ (by rfl), ?_⟩
  exact (C6_challenge_id_preserved [{ mkMovie "5" with challenge_id := "keep" }]
      exampleFolders exampleFetch).2 { mkMovie "6" with title := "Six" }
    (by decide) (by decide)

/-- C10: the dict comprehension drops records with an empty (or missing)
`tmdb_id` and keeps the last occurrence of a duplicated id; the merged
catalog (and hence the sorted output) has non-empty, pairwise-distinct ids. -/
theorem C10_unique_nonempty_ids (C : List Movie) (F : FolderState)
    (fetch : String → Option Movie)
    (hgood : ∀ i mi, fetch i = some mi → mi.tmdb_id = i)
    (hne : ∀ fo ∈ F, FolderEntry.name fo ≠ "") :
    (∀ id, id ≠ "" →
        dictFind (dedupe C) id = (C.filter (fun m => m.tmdb_id == id)).getLast?)
    ∧ dictFind (dedupe C) "" = none
    ∧ (∀ r ∈ mergedMovies C F fetch, Movie.tmdb_id r ≠ "")
    ∧ ((mergedMovies C F fetch).map Movie.tmdb_id).Nodup
    ∧ (∀ O, reconcile C F fetch = Except.ok O →
        (∀ r ∈ O, Movie.tmdb_id r ≠ "") ∧ (O.map Movie.tmdb_id).Nodup) := by
  have hGood : GoodCat (mergeCatalog C F fetch) := goodCat_mergeCatalog hgood hne
  have hids : (mergedMovies C F fetch).map Movie.tmdb_id =
      keys (mergeCatalog C F fetch) := by
    rw [mergedMovies_def]
    exact map_tmdb_eq_keys (fun p hp => (hGood.2 p hp).1)
  refine ⟨fun id hid => dictFind_dedupe_last hid C, dictFind_dedupe_empty C,
    ?_, ?_, ?_⟩
  · intro r hr
    rw [mergedMovies_def] at hr
    rcases List.mem_map.1 hr with ⟨p, hp, hpr⟩
    have hg := hGood.2 p hp
    rw [← hpr, ← hg.1]
    exact hg.2
  · rw [hids]
    exact hGood.1
  · intro O hO
    have hperm : O.Perm (mergedMovies C F fetch) := sortMovies_ok_perm hO
    constructor
    · intro r hr
      have hrm := hperm.subset hr
      rw [mergedMovies_def] at hrm
      rcases List.mem_map.1 hrm with ⟨p, hp, hpr⟩
      have hg := hGood.2 p hp
      rw [← hpr, ← hg.1]
      exact hg.2
    · have hp2 := hperm.map Movie.tmdb_id
      exact hp2.nodup_iff.2 (hids ▸ hGood.1)

/-- An input catalog with an empty-id record and a duplicated id 1. -/
def c10Input : List Movie :=
  [mkMovie "", mkMovie "1", { mkMovie "1" with title := "B" }]

/-- Witness for C10: the empty-id record vanishes, the duplicate keeps its
last occurrence, and the merged example catalog has distinct ids. -/
theorem C10_unique_nonempty_ids_witness :
    dictFind (dedupe c10Input) "1" =
      (c10Input.filter (fun m => m.tmdb_id == "1")).getLast?
    ∧ dictFind (dedupe c10Input) "" = none
    ∧ ((mergedMovies c10Input exampleFolders exampleFetch).map Movie.tmdb_id).Nodup := by
  have h := C10_unique_nonempty_ids c10Input exampleFolders exampleFetch
    exampleFetch_good (by decide)
  exact ⟨h.1 "1" (by decide), h.2.1, h.2.2.2.1⟩

/-! ### Text-normalizer claims -/

/-- C1 (evidence for the code bug): on the spec's own example — external ids
10, 2, abc, 1 — `sort_movies` raises `TypeError` (its key function returns
`int` for the numeric ids and `str` for "abc", and Python 3 cannot compare
the two), instead of producing 1, 2, 10, abc; the intended ascending numeric
order does hold on the all-numeric part of the example. -/
theorem C1_sort_mixed_typeerror :
    sortMovies [mkMovie "10", mkMovie "2", mkMovie "abc", mkMovie "1"] =
      Except.error ()
    ∧ sortMovies [mkMovie "10", mkMovie "2", mkMovie "1"] =
        Except.ok [mkMovie "1", mkMovie "2", mkMovie "10"] := ⟨rfl, rfl⟩

/-- The apostrophe character. -/
def apos : String := String.singleton (Char.ofNat 39)

/-- The spec's example title, "Pirates of the Caribbean: Dead Man's Chest". -/
def piratesTitle : String :=
  "Pirates of the Caribbean: Dead Man" ++ apos ++ "s Chest"

/-- C7 (evidence for the code bug): `get_movie_initials` upper-cases the
first letter of EVERY token (`word[0].upper()`), so the example title yields
"POTC:DMC", not the "PotC:DMC" promised by the claim and by the function's
own docstring. -/
theorem C7_initials_all_uppercased :
    get_movie_initials piratesTitle = "POTC:DMC"
    ∧ get_movie_initials piratesTitle ≠ "PotC:DMC" := ⟨rfl, by decide⟩

/-- C8 counterexample: with no usable `id:` line and stem `"12a345_metadata"`
(digit runs "12" and "345"), the code returns the concatenation of all
digits, "12345", not the longest run "345" stated by the claim. -/
theorem C8_fallback_counterexample :
    parseTmdbId [] "12a345_metadata" = some "12345"
    ∧ specLongestDigitRun "12a345_metadata" = "345"
    ∧ ("12345" : String) ≠ "345" := ⟨rfl, rfl, by decide⟩

/-- C8 as amended: when the metadata content has no line that starts with
`"id:"` (case-insensitively) with a non-empty remainder, the extractor
returns the concatenation of every digit character of the filename stem, in
order, and `none` when the stem has no digits. -/
theorem C8_fallback_all_digits (lines : List String) (stem : String)
    (h : ∀ l ∈ lines, startsWithL "id:".data (toLowerL l.data) = true →
        pyStripL (afterFirstColon l.data) = []) :
    parseTmdbId lines stem =
      (if (stem.data.filter Char.isDigit).isEmpty then none
       else some (String.mk (stem.data.filter Char.isDigit))) := by
  unfold parseTmdbId
  rw [show lines.findSome? idLineHit = none from ?_]
  · rw [List.findSome?_eq_none_iff]
    intro l hl
    unfold idLineHit
    by_cases hsw : startsWithL "id:".data (toLowerL l.data) = true
    · simp [hsw, h l hl hsw]
    · simp [hsw]

/-- Witness for the amended C8: a metadata file whose only line is not an
`id:` line falls back to the digits of `"33_metadata"`. -/
theorem C8_fallback_all_digits_witness :
    parseTmdbId ["title: x"] "33_metadata" = some "33" := by
  rw [C8_fallback_all_digits ["title: x"] "33_metadata" (by decide)]
  rfl

/-- C9 counterexample: the single-pass removal deletes "Jane" out of the
middle of the (non-empty) text "JaJanene" with the (non-empty) name list
["Jane"], splicing the flanking "Ja" and "ne" into a fresh occurrence of
"Jane" — so the output does contain a listed name. -/
theorem C9_redaction_counterexample :
    cleanText "JaJanene" ["Jane"] = "Jane"
    ∧ ciSubstr "Jane".data (cleanText "JaJanene" ["Jane"]).data = true
    ∧ "JaJanene" ≠ "" ∧ (["Jane"] : List String) ≠ [] :=
  ⟨rfl, rfl, by decide, by decide⟩

theorem dropWhile_head_not (p : Char → Bool) (l : List Char) {c : Char}
    (h : (l.dropWhile p).head? = some c) : p c = false := by
  induction l with
  | nil => cases h
  | cons x xs ih =>
    rw [List.dropWhile_cons] at h
    by_cases hx : p x = true
    · rw [if_pos hx] at h
      exact ih h
    · rw [if_neg hx] at h
      injection h with h2
      subst h2
      simpa using hx

theorem dropWhile_getLast? (p : Char → Bool) (l : List Char)
    (h : l.dropWhile p ≠ []) : (l.dropWhile p).getLast? = l.getLast? := by
  induction l with
  | nil => simp at h
  | cons x xs ih =>
    rw [List.dropWhile_cons] at h ⊢
    by_cases hx : p x = true
    · rw [if_pos hx] at h ⊢
      cases xs with
      | nil => simp at h
      | cons y ys => rw [ih h, List.getLast?_cons_cons]
    · rw [if_neg hx]

theorem noEdgeWS_of_head_last {l : List Char}
    (h1 : ∀ c, l.head? = some c → isPySpace c = false)
    (h2 : ∀ c, l.getLast? = some c → isPySpace c = false) :
    noEdgeWS l = true := by
  cases l with
  | nil => rfl
  | cons c rest =>
    have hc := h1 c rfl
    cases hg : (c :: rest).getLast? with
    | none => simp [noEdgeWS, hc, hg]
    | some d => simp [noEdgeWS, hc, hg, h2 d hg]

/-- The result of `pyStripL` has no whitespace at either end. -/
theorem noEdgeWS_pyStripL (l : List Char) : noEdgeWS (pyStripL l) = true := by
  rw [show pyStripL l =
    ((l.dropWhile isPySpace).reverse.dropWhile isPySpace).reverse from rfl]
  apply noEdgeWS_of_head_last
  · intro c hc
    rw [List.head?_reverse] at hc
    have hBne : (l.dropWhile isPySpace).reverse.dropWhile isPySpace ≠ [] := by
      intro he
      rw [he] at hc
      cases hc
    rw [dropWhile_getLast? _ _ hBne, List.getLast?_reverse] at hc
    exact dropWhile_head_not _ _ hc
  · intro c hc
    rw [List.getLast?_reverse] at hc
    exact dropWhile_head_not _ _ hc

/-- C9 as amended: the redaction is one left-to-right case-insensitive
removal pass followed by `strip()`: for non-empty text and names the result
carries no leading or trailing whitespace (though a listed name may reappear
when a deletion splices its flanks together); empty text or an empty name
list is returned unchanged; on the spec's example the result is
"A film by ." and indeed contains no occurrence of "Jane". -/
theorem C9_redaction_amended :
    (∀ text names, text ≠ "" → names ≠ ([] : List String) →
        noEdgeWS (cleanText text names).data = true)
    ∧ (∀ text names, text = "" ∨ names = ([] : List String) →
        cleanText text names = text)
    ∧ cleanText "A film by Jane." ["Jane"] = "A film by ."
    ∧ ciSubstr "jane".data (cleanText "A film by Jane." ["Jane"]).data = false := by
  refine ⟨?_, ?_, rfl, rfl⟩
  · intro text names ht hn
    unfold cleanText
    rw [if_neg (show ¬(text = "" ∨ names = []) from fun h =>
      h.elim (fun h1 => ht h1) (fun h2 => hn h2))]
    exact noEdgeWS_pyStripL _
  · intro text names h
    unfold cleanText
    rw [if_pos h]

/-- Witness for the amended C9 at a concrete whitespace-padded input. -/
theorem C9_redaction_amended_witness :
    noEdgeWS (cleanText "  spacey  " ["x"]).data = true :=
  C9_redaction_amended.1 "  spacey  " ["x"] (by decide) (by decide)

end CineGuess
